import Mathlib

/-!
# Verification of the blockchain-poc node against its specification

Shallow embedding of the ledger/consensus core of the `blockchain-poc-full`
repository: canonical SHA-256 hashing (Node's `crypto` sha256 over UTF-8
strings, modelled on ASCII data as code-point bytes), the merkle-root
computation of `routes/blocks.js`, the SQLite-backed ledger store of `db.js`
(blocks, mempool and confirmed-transaction tables with their NOT NULL and
UNIQUE constraints), transaction admission (`routes/transactions.js`), block
production and the five-stage block validation pipeline (`routes/blocks.js`),
and the startup chain synchronization of `index.js`.

Machine words are `Nat` with explicit reduction modulo `2^32`; JavaScript
values that may be `undefined` are `Option`s, with the source's truthiness
tests (`!x`, `x || y`, `x === undefined`) modelled explicitly.
-/

namespace SHA256

/-- 2^32, the word modulus. -/
def M32 : Nat := 4294967296

/-- Right-rotation of a 32-bit word held in a `Nat`. -/
def rotr (n x : Nat) : Nat := ((x >>> n) ||| (x <<< (32 - n))) % M32

/-- The 64 SHA-256 round constants (FIPS 180-4 §4.2.2). -/
def K : List Nat :=
  [1116352408, 1899447441, 3049323471, 3921009573, 961987163, 1508970993,
   2453635748, 2870763221, 3624381080, 310598401, 607225278, 1426881987,
   1925078388, 2162078206, 2614888103, 3248222580, 3835390401, 4022224774,
   264347078, 604807628, 770255983, 1249150122, 1555081692, 1996064986,
   2554220882, 2821834349, 2952996808, 3210313671, 3336571891, 3584528711,
   113926993, 338241895, 666307205, 773529912, 1294757372, 1396182291,
   1695183700, 1986661051, 2177026350, 2456956037, 2730485921, 2820302411,
   3259730800, 3345764771, 3516065817, 3600352804, 4094571909, 275423344,
   430227734, 506948616, 659060556, 883997877, 958139571, 1322822218,
   1537002063, 1747873779, 1955562222, 2024104815, 2227730452, 2361852424,
   2428436474, 2756734187, 3204031479, 3329325298]

/-- The eight initial hash values (FIPS 180-4 §5.3.3). -/
def H0 : List Nat :=
  [1779033703, 3144134277, 1013904242, 2773480762, 1359893119, 2600822924,
   528734635, 1541459225]

/-- Big-endian 8-byte rendering of the 64-bit message bit length. -/
def lenBytes (bitLen : Nat) : List Nat :=
  [(bitLen >>> 56) % 256, (bitLen >>> 48) % 256, (bitLen >>> 40) % 256, (bitLen >>> 32) % 256,
   (bitLen >>> 24) % 256, (bitLen >>> 16) % 256, (bitLen >>> 8) % 256, bitLen % 256]

/-- SHA-256 padding: `0x80`, zeros to 56 mod 64, then the bit length. -/
def pad (msg : List Nat) : List Nat :=
  let len := msg.length
  let zeros := (119 - len % 64) % 64
  msg ++ [0x80] ++ List.replicate zeros 0 ++ lenBytes (len * 8)

/-- Split a byte list into 64-byte chunks; the fuel is an upper bound on the
number of chunks, kept structural so the kernel can evaluate it. -/
def chunksFuel : Nat → List Nat → List (List Nat)
  | _, [] => []
  | 0, _ :: _ => []
  | fuel + 1, a :: rest => (a :: rest).take 64 :: chunksFuel fuel ((a :: rest).drop 64)

/-- Split a byte list into 64-byte chunks. -/
def chunks64 (l : List Nat) : List (List Nat) := chunksFuel l.length l

/-- Assemble big-endian 32-bit words from bytes. -/
def toWords : List Nat → List Nat
  | a :: b :: c :: d :: rest => ((((a <<< 8) ||| b) <<< 8 ||| c) <<< 8 ||| d) :: toWords rest
  | _ => []

/-- One step of the message-schedule extension; `acc` holds the words produced
so far, newest first. -/
def extendStep (acc : List Nat) : List Nat :=
  let w2 := acc.getD 1 0
  let w7 := acc.getD 6 0
  let w15 := acc.getD 14 0
  let w16 := acc.getD 15 0
  let s0 := (rotr 7 w15) ^^^ (rotr 18 w15) ^^^ (w15 >>> 3)
  let s1 := (rotr 17 w2) ^^^ (rotr 19 w2) ^^^ (w2 >>> 10)
  ((w16 + s0 + w7 + s1) % M32) :: acc

/-- The 64-word message schedule of one chunk. -/
def schedule (chunk : List Nat) : List Nat :=
  ((List.range 48).foldl (fun acc _ => extendStep acc) (toWords chunk).reverse).reverse

/-- One compression round on the eight-word working state. -/
def round (st : List Nat) (w k : Nat) : List Nat :=
  match st with
  | [a, b, c, d, e, f, g, h] =>
    let S1 := (rotr 6 e) ^^^ (rotr 11 e) ^^^ (rotr 25 e)
    let ch := (e &&& f) ^^^ ((e ^^^ 4294967295) &&& g)
    let t1 := (h + S1 + ch + k + w) % M32
    let S0 := (rotr 2 a) ^^^ (rotr 13 a) ^^^ (rotr 22 a)
    let maj := (a &&& b) ^^^ (a &&& c) ^^^ (b &&& c)
    let t2 := (S0 + maj) % M32
    [(t1 + t2) % M32, a, b, c, (d + t1) % M32, e, f, g]
  | _ => st

/-- Compress one 64-byte chunk into the running state. -/
def compress (st : List Nat) (chunk : List Nat) : List Nat :=
  let fin := ((schedule chunk).zip K).foldl (fun s wk => round s wk.1 wk.2) st
  List.zipWith (fun x y => (x + y) % M32) st fin

/-- SHA-256 of a byte list: the eight-word digest. -/
def digestWords (msg : List Nat) : List Nat :=
  (chunks64 (pad msg)).foldl compress H0

/-- One lowercase hex digit. -/
def hexChar (n : Nat) : Char := if n < 10 then Char.ofNat (48 + n) else Char.ofNat (87 + n)

/-- Lowercase hex rendering of one 32-bit word. -/
def hexWord (w : Nat) : String :=
  String.mk ((List.range 8).map (fun i => hexChar ((w >>> ((7 - i) * 4)) &&& 15)))

/-- A string's bytes; code points, which agree with UTF-8 on the ASCII data
this system hashes. -/
def strBytes (s : String) : List Nat := s.data.map Char.toNat

end SHA256

/-- `crypto.createHash('sha256').update(s).digest('hex')`: the lowercase hex
digest of a string, as every hash in the source is taken. -/
def sha256hex (s : String) : String :=
  String.join ((SHA256.digestWords (SHA256.strBytes s)).map SHA256.hexWord)

/-! ## JavaScript value coercions

Fields of JSON request bodies that may be absent are `Option`s. `jstr`/`jint`
render a possibly-absent value inside a string concatenation the way
JavaScript does (`undefined` prints as `"undefined"`); `falsyStr` is the `!x`
test on a string field (absent or empty); `truthyOr` is `x || y`. -/

/-- JS string coercion of a possibly-absent string in a concatenation. -/
def jstr : Option String → String
  | some s => s
  | none => "undefined"

/-- JS string coercion of a possibly-absent number in a concatenation. -/
def jint : Option Int → String
  | some n => toString n
  | none => "undefined"

/-- JS `!x` on a possibly-absent string field: true when absent or empty. -/
def falsyStr : Option String → Bool
  | some s => s = ""
  | none => true

/-- JS `x || d` on a possibly-absent string field. -/
def truthyOr : Option String → String → String
  | some s, d => if s = "" then d else s
  | none, d => d

/-- JSON string escaping; the quote and backslash cases that can arise in this
system's identifiers and digests (control characters are not modelled). -/
def jsonEscape (s : String) : String :=
  ⟨s.data.foldr (fun c acc => if c = '"' ∨ c = '\\' then '\\' :: c :: acc else c :: acc) []⟩

/-- A JSON string literal. -/
def jsonQuote (s : String) : String := "\"" ++ jsonEscape s ++ "\""

/-- A transaction object as a JavaScript value: every field may be absent.
The four numeric measurement fields are carried as their JSON numeric text
(their numeric value is never inspected by the core). -/
structure TxMsg where
  transactionId : Option String := none
  projId : Option String := none
  timestamp : Option String := none
  submitterId : Option String := none
  stationID : Option String := none
  SO2 : Option String := none
  NO2 : Option String := none
  PM10 : Option String := none
  PM2_5 : Option String := none
  rawDataJson : Option String := none
  rowHash : Option String := none
deriving DecidableEq, Repr

/-- `JSON.stringify({ id: tx.transactionId, hash: tx.rowHash })`: absent
fields are dropped, as `JSON.stringify` drops `undefined` values. -/
def jsonIdHash (t : TxMsg) : String :=
  let fields :=
    (match t.transactionId with
      | some i => ["\"id\":" ++ jsonQuote i]
      | none => []) ++
    (match t.rowHash with
      | some h => ["\"hash\":" ++ jsonQuote h]
      | none => [])
  "\x7b" ++ String.intercalate "," fields ++ "\x7d"

/-- `JSON.stringify(transactions.map(tx => ({id: ..., hash: ...})))`. -/
def jsonIdHashList (ts : List TxMsg) : String :=
  "[" ++ String.intercalate "," (ts.map jsonIdHash) ++ "]"

/-- The `rawDataJson` a local submission generates:
`JSON.stringify({submitterId, stationID, SO2, NO2, PM10, PM2_5})` with absent
fields dropped; strings quoted, numeric fields emitted as their JSON text. -/
def jsonSubmitPayload (m : TxMsg) : String :=
  let strField := fun (k : String) (v : Option String) =>
    match v with
    | some s => [jsonQuote k ++ ":" ++ jsonQuote s]
    | none => []
  let numField := fun (k : String) (v : Option String) =>
    match v with
    | some s => [jsonQuote k ++ ":" ++ s]
    | none => []
  "\x7b" ++ String.intercalate ","
    (strField "submitterId" m.submitterId ++ strField "stationID" m.stationID ++
     numField "SO2" m.SO2 ++ numField "NO2" m.NO2 ++
     numField "PM10" m.PM10 ++ numField "PM2_5" m.PM2_5) ++ "\x7d"

/-! ## Merkle root (`routes/blocks.js` lines 10-35) -/

/-- One pass of pairwise hashing: hash the concatenation of adjacent pairs. -/
def pairUp : List String → List String
  | a :: b :: rest => sha256hex (a ++ b) :: pairUp rest
  | _ => []

/-- One iteration of the `while` loop: duplicate the last hash when the level
has odd length, then pair up. -/
def merkleStep (hs : List String) : List String :=
  pairUp (if hs.length % 2 ≠ 0 then hs ++ [hs.getLastD ""] else hs)

/-- The `while (hashes.length > 1)` loop; the fuel (the initial level length)
bounds the number of iterations, each of which at least halves the level. -/
def merkleLoop : Nat → List String → List String
  | 0, hs => hs
  | fuel + 1, hs => if hs.length > 1 then merkleLoop fuel (merkleStep hs) else hs

/-- `calculateMerkleRoot(transactions)`: the fixed placeholder digest for an
empty list, otherwise the bottom-up pairing of the `rowHash` leaves. -/
def calculateMerkleRoot (txs : List TxMsg) : String :=
  if txs.length = 0 then sha256hex "empty_merkle_root_placeholder"
  else
    let hashes := txs.map (fun tx => jstr tx.rowHash)
    (merkleLoop hashes.length hashes).headD ""

/-! ## Ledger store (`db.js`)

The three SQLite tables are lists in insertion (rowid) order. Columns
declared `NOT NULL` are total fields; nullable columns are `Option`s. The
`UNIQUE` constraints on `bchain.blockIndex`, `mempool_transactions.transaction_id`
and `confirmed_transactions.transaction_id` are enforced by the insert
operations, which fail with the corresponding constraint violation. -/

/-- A row of `mempool_transactions`. -/
structure MemRow where
  transactionId : String
  projId : String
  timestamp : String
  submitterId : String
  stationID : Option String := none
  SO2 : Option String := none
  NO2 : Option String := none
  PM10 : Option String := none
  PM2_5 : Option String := none
  rawDataJson : String
  rowHash : String
deriving DecidableEq, Repr

/-- A row of `confirmed_transactions`; `blockId` references the committing
block's `bchain` rowid. -/
structure ConfRow where
  transactionId : String
  blockId : Nat
  projId : String
  timestamp : String
  submitterId : String
  stationID : Option String := none
  SO2 : Option String := none
  NO2 : Option String := none
  PM10 : Option String := none
  PM2_5 : Option String := none
  rawDataJson : String
  rowHash : String
deriving DecidableEq, Repr

/-- A stored row of `bchain`, with the `transactions` JSON column in parsed
form, as `getLastBlock`/`getAllBlocks` return it. -/
structure Block where
  blockIndex : Int
  timestamp : String
  transactions : List TxMsg
  nonce : Int
  hash : String
  previousBlockHash : String
  merkleRoot : String
deriving DecidableEq, Repr

/-- A node's local persistent state: the three tables of its database. -/
structure NodeState where
  chain : List Block
  mempool : List MemRow
  confirmed : List ConfRow
deriving DecidableEq, Repr

/-- A storage-layer failure: a violated `NOT NULL` or `UNIQUE` constraint
(named by its column), or the "Project ID not set" error thrown by
`createTransaction`. -/
inductive DbErr where
  | notNullViolation (column : String)
  | uniqueViolation (column : String)
  | projIdUnset
deriving DecidableEq, Repr

/-- One step of taking the block of maximal `blockIndex`. -/
def maxB (acc : Option Block) (b : Block) : Option Block :=
  match acc with
  | none => some b
  | some m => if b.blockIndex > m.blockIndex then some b else acc

/-- `getLastBlock()`: `SELECT * FROM bchain ORDER BY blockIndex DESC LIMIT 1`,
i.e. the stored block of maximal `blockIndex` (unique by the constraint). -/
def getLastBlock (chain : List Block) : Option Block :=
  chain.foldl maxB none

/-- `lastBlock ? lastBlock.hash : '0'`, as both the miner and the validator
compute it. -/
def localLastHash (s : NodeState) : String :=
  match getLastBlock s.chain with
  | some b => b.hash
  | none => "0"

/-- `lastBlock ? lastBlock.blockIndex : -1`, as both the miner and the
validator compute it. -/
def localLastIndex (s : NodeState) : Int :=
  match getLastBlock s.chain with
  | some b => b.blockIndex
  | none => -1

/-- Byte-wise lexicographic comparison, SQLite's ordering of `TEXT` values. -/
def bytesLe : List Nat → List Nat → Bool
  | [], _ => true
  | _ :: _, [] => false
  | x :: xs, y :: ys => if x < y then true else if y < x then false else bytesLe xs ys

/-- The comparison `ORDER BY timestamp ASC` sorts by. -/
def tsLE (a b : MemRow) : Prop :=
  bytesLe (SHA256.strBytes a.timestamp) (SHA256.strBytes b.timestamp) = true

instance : DecidableRel tsLE :=
  fun a b => inferInstanceAs (Decidable (_ = true))

/-- The mempool ordered by `timestamp ASC`; a stable sort, matching SQLite's
tie-breaking by rowid (insertion) order. -/
def sortByTimestamp (l : List MemRow) : List MemRow := l.insertionSort tsLE

/-- `getTransactionsForBlock(limit)`: the oldest `limit` pending transactions. -/
def getTransactionsForBlock (limit : Nat) (mempool : List MemRow) : List MemRow :=
  (sortByTimestamp mempool).take limit

/-- The full transaction object `getTransactionsForBlock` reconstructs from a
mempool row. -/
def memToMsg (r : MemRow) : TxMsg :=
  { transactionId := some r.transactionId, projId := some r.projId,
    timestamp := some r.timestamp, submitterId := some r.submitterId,
    stationID := r.stationID, SO2 := r.SO2, NO2 := r.NO2, PM10 := r.PM10,
    PM2_5 := r.PM2_5, rawDataJson := some r.rawDataJson, rowHash := some r.rowHash }

/-- `removeTransactionsFromMempool(ids)`: `DELETE FROM mempool_transactions
WHERE transaction_id IN (...)`. -/
def removeTransactionsFromMempool (ids : List String) (s : NodeState) : NodeState :=
  { s with mempool := s.mempool.filter (fun r => !(ids.contains r.transactionId)) }

/-! ## Transaction creation (`db.js` lines 205-279) -/

/-- The values the environment supplies to `createTransaction`: the UUID and
ISO timestamp it would generate, and the node's `theProj` identity (absent
when `setProjId` was called with `undefined`). -/
structure GenCtx where
  genId : String
  genTs : String
  theProj : Option String
deriving DecidableEq, Repr

/-- The field-selection part of `createTransaction`: prioritise received
values, otherwise generate, then build the mempool row and the returned
transaction object. Fails like the source when neither the node nor the data
carries a project id, or when the `NOT NULL` `submitter_id` column would be
bound to `undefined`. -/
def finalizeTransaction (ctx : GenCtx) (m : TxMsg) : Except DbErr (MemRow × TxMsg) :=
  if ctx.theProj = none ∧ m.projId = none then
    Except.error DbErr.projIdUnset
  else
    let finalTransactionId := truthyOr m.transactionId ctx.genId
    let finalTimestamp := truthyOr m.timestamp ctx.genTs
    let finalProjId :=
      match m.projId with
      | some p => p
      | none => jstr ctx.theProj
    let rawDataForHash := truthyOr m.rawDataJson (jsonSubmitPayload m)
    let finalRowHash :=
      truthyOr m.rowHash (sha256hex (finalTransactionId ++ finalTimestamp ++ rawDataForHash))
    match m.submitterId with
    | none => Except.error (DbErr.notNullViolation "mempool_transactions.submitter_id")
    | some sub =>
      Except.ok
        ({ transactionId := finalTransactionId, projId := finalProjId,
           timestamp := finalTimestamp, submitterId := sub, stationID := m.stationID,
           SO2 := m.SO2, NO2 := m.NO2, PM10 := m.PM10, PM2_5 := m.PM2_5,
           rawDataJson := rawDataForHash, rowHash := finalRowHash },
         { transactionId := some finalTransactionId, timestamp := some finalTimestamp,
           rowHash := some finalRowHash, projId := some finalProjId,
           rawDataJson := some rawDataForHash, submitterId := m.submitterId,
           stationID := m.stationID, SO2 := m.SO2, NO2 := m.NO2, PM10 := m.PM10,
           PM2_5 := m.PM2_5 })

/-- `createTransaction(transactionData)`: finalize the fields and insert into
the mempool, enforcing `transaction_id` uniqueness; on success returns the
complete transaction object for broadcast. -/
def createTransaction (ctx : GenCtx) (m : TxMsg) (s : NodeState) :
    Except DbErr (TxMsg × NodeState) :=
  match finalizeTransaction ctx m with
  | Except.error e => Except.error e
  | Except.ok (row, ret) =>
    if s.mempool.any (fun r => r.transactionId = row.transactionId) then
      Except.error (DbErr.uniqueViolation "mempool_transactions.transaction_id")
    else
      Except.ok (ret, { s with mempool := s.mempool ++ [row] })

/-! ## Atomic block commit (`db.js` lines 409-491) -/

/-- The block object handed to `addBlockToBlockchain`: a JavaScript value
whose scalar fields may be absent; its `transactions` array is present at
every call site. -/
structure BlockIn where
  blockIndex : Option Int := none
  timestamp : Option String := none
  transactions : List TxMsg := []
  nonce : Option Int := none
  hash : Option String := none
  previousBlockHash : Option String := none
  merkleRoot : Option String := none
deriving DecidableEq, Repr

/-- The lightweight representation stored in the block's `transactions`
column: only `transactionId` and `rowHash` survive. -/
def lightTx (t : TxMsg) : TxMsg :=
  { transactionId := t.transactionId, rowHash := t.rowHash }

/-- One insert into `confirmed_transactions`, checking the `NOT NULL`
columns and `transaction_id` uniqueness against the rows already present
(including those inserted earlier in the same commit). -/
def insertConfirmed (blockId : Nat) (rows : List ConfRow) (t : TxMsg) :
    Except DbErr (List ConfRow) :=
  match t.transactionId, t.projId, t.timestamp, t.submitterId, t.rawDataJson, t.rowHash with
  | none, _, _, _, _, _ => Except.error (DbErr.notNullViolation "confirmed_transactions.transaction_id")
  | some _, none, _, _, _, _ => Except.error (DbErr.notNullViolation "confirmed_transactions.projId")
  | some _, some _, none, _, _, _ => Except.error (DbErr.notNullViolation "confirmed_transactions.timestamp")
  | some _, some _, some _, none, _, _ => Except.error (DbErr.notNullViolation "confirmed_transactions.submitter_id")
  | some _, some _, some _, some _, none, _ => Except.error (DbErr.notNullViolation "confirmed_transactions.raw_data_json")
  | some _, some _, some _, some _, some _, none => Except.error (DbErr.notNullViolation "confirmed_transactions.rowHash")
  | some tid, some pj, some ts, some sub, some raw, some rh =>
    if rows.any (fun c => c.transactionId = tid) then
      Except.error (DbErr.uniqueViolation "confirmed_transactions.transaction_id")
    else
      Except.ok (rows ++
        [{ transactionId := tid, blockId := blockId, projId := pj,
           timestamp := ts, submitterId := sub, stationID := t.stationID, SO2 := t.SO2,
           NO2 := t.NO2, PM10 := t.PM10, PM2_5 := t.PM2_5, rawDataJson := raw,
           rowHash := rh }])

/-- Insert a block's transactions into `confirmed_transactions` one after the
other, stopping at the first constraint violation. -/
def insertConfirmedAll (blockId : Nat) : List ConfRow → List TxMsg → Except DbErr (List ConfRow)
  | rows, [] => Except.ok rows
  | rows, t :: ts =>
    match insertConfirmed blockId rows t with
    | Except.error e => Except.error e
    | Except.ok rows' => insertConfirmedAll blockId rows' ts

/-- `addBlockToBlockchain(block)`: inside one storage transaction, insert the
block row (its `transactions` column holding only the lightweight
`{transactionId, rowHash}` pairs) and every transaction into
`confirmed_transactions` tagged with the new block's rowid; any failure rolls
the whole commit back, leaving the state unchanged. The mempool is not
touched. -/
def addBlockToBlockchain (b : BlockIn) (s : NodeState) :
    Except DbErr (NodeState × Block) :=
  match b.blockIndex, b.timestamp, b.nonce, b.hash, b.previousBlockHash, b.merkleRoot with
  | none, _, _, _, _, _ => Except.error (DbErr.notNullViolation "bchain.blockIndex")
  | some _, none, _, _, _, _ => Except.error (DbErr.notNullViolation "bchain.timestamp")
  | some _, some _, none, _, _, _ => Except.error (DbErr.notNullViolation "bchain.nonce")
  | some _, some _, some _, none, _, _ => Except.error (DbErr.notNullViolation "bchain.hash")
  | some _, some _, some _, some _, none, _ => Except.error (DbErr.notNullViolation "bchain.previousBlockHash")
  | some _, some _, some _, some _, some _, none => Except.error (DbErr.notNullViolation "bchain.merkleRoot")
  | some bi, some ts, some nn, some h, some ph, some mr =>
    if s.chain.any (fun c => c.blockIndex = bi) then
      Except.error (DbErr.uniqueViolation "bchain.blockIndex")
    else
      let stored : Block :=
        { blockIndex := bi, timestamp := ts, transactions := b.transactions.map lightTx,
          nonce := nn, hash := h, previousBlockHash := ph, merkleRoot := mr }
      match insertConfirmedAll (s.chain.length + 1) s.confirmed b.transactions with
      | Except.error e => Except.error e
      | Except.ok confirmed =>
        Except.ok
          ({ chain := s.chain ++ [stored], mempool := s.mempool, confirmed := confirmed },
           stored)

/-! ## Genesis block (`db.js` lines 128-169) -/

/-- The genesis block the Regulator node inserts at first initialization: its
`hash` and `merkleRoot` are fixed digests of constant strings, not derived
from the block's fields. -/
def mkGenesis (now : String) : Block :=
  { blockIndex := 0, timestamp := now, transactions := [], nonce := 0,
    hash := sha256hex "regulator_genesis_block_v1",
    previousBlockHash := "0",
    merkleRoot := sha256hex "genesis_merkle_root_v1" }

/-- `initDb`'s chain initialization: an empty table gets the genesis block on
the authority (`projId '0'`) and stays empty elsewhere. -/
def initChain (isAuthority : Bool) (now : String) : List Block :=
  if isAuthority then [mkGenesis now] else []

/-! ## Block production and validation (`routes/blocks.js`) -/

/-- The string hashed into a block header:
`blockIndex + timestamp + merkleRoot + previousBlockHash + nonce +
JSON.stringify(transactions.map(tx => ({id, hash})))`, with the scalar pieces
already coerced to strings. -/
def blockHashInput (bi : Int) (ts mr ph nn : String) (txs : List TxMsg) : String :=
  toString bi ++ ts ++ mr ++ ph ++ nn ++ jsonIdHashList txs

/-- What a mining tick reports. -/
inductive MineOutcome where
  | notEnough (count : Nat)
  | mined (b : BlockIn)
deriving DecidableEq, Repr

/-- How a mining tick can fail: a storage error from the commit, or a
rejected broadcast promise (the `Promise.all` has no per-peer catch). -/
inductive MineErr where
  | storage (e : DbErr)
  | broadcastFailed
deriving DecidableEq, Repr

/-- Steps 1-4 of `mineBlockInternal`: assemble the candidate block from the
five oldest pending transactions, the local last block, the computed merkle
root, `nonce = 0`, and the computed header hash. -/
def buildCandidateBlock (now : String) (s : NodeState) : BlockIn :=
  let pending := (getTransactionsForBlock 5 s.mempool).map memToMsg
  let previousBlockHash := localLastHash s
  let mr := calculateMerkleRoot pending
  let bi := localLastIndex s + 1
  { blockIndex := some bi, timestamp := some now, transactions := pending,
    nonce := some 0,
    hash := some (sha256hex (blockHashInput bi now mr previousBlockHash "0" pending)),
    previousBlockHash := some previousBlockHash, merkleRoot := some mr }

/-- `mineBlockInternal()` on the state `s` at wall-clock time `now`;
`peerOk` lists, per known peer, whether its `/blocks/receive` call succeeds.
Returns the thrown error or the result, with the resulting local state. -/
def mineBlockInternal (now : String) (peerOk : List Bool) (s : NodeState) :
    Except MineErr MineOutcome × NodeState :=
  if s.mempool.length < 5 then (Except.ok (MineOutcome.notEnough s.mempool.length), s)
  else
    match addBlockToBlockchain (buildCandidateBlock now s) s with
    | Except.error e => (Except.error (MineErr.storage e), s)
    | Except.ok (s1, _) =>
      ((if peerOk.all (fun x => x) then Except.ok (MineOutcome.mined (buildCandidateBlock now s))
        else Except.error MineErr.broadcastFailed),
       removeTransactionsFromMempool
         ((getTransactionsForBlock 5 s.mempool).map (fun r => r.transactionId)) s1)

/-- A block object as received on `/blocks/receive`. -/
structure BlockMsg where
  blockIndex : Option Int := none
  timestamp : Option String := none
  transactions : Option (List TxMsg) := none
  merkleRoot : Option String := none
  previousBlockHash : Option String := none
  nonce : Option Int := none
  hash : Option String := none
deriving DecidableEq, Repr

/-- The response of the `/blocks/receive` pipeline. -/
inductive RecvBlockResult where
  | missingFields
  | staleIgnored
  | nonSequential
  | linkageMismatch
  | hashMismatch
  | merkleMismatch
  | commitFailed (e : DbErr)
  | accepted
deriving DecidableEq, Repr

/-- The five-stage validation pipeline of `POST /blocks/receive`, followed on
success by the commit and the mempool pruning. -/
def receiveBlock (m : BlockMsg) (s : NodeState) : RecvBlockResult × NodeState :=
  match m.blockIndex, m.transactions with
  | some bi, some txs =>
    if falsyStr m.timestamp || falsyStr m.merkleRoot ||
       falsyStr m.previousBlockHash || falsyStr m.hash then
      (RecvBlockResult.missingFields, s)
    else
      if bi ≤ localLastIndex s then (RecvBlockResult.staleIgnored, s)
      else if bi ≠ localLastIndex s + 1 then (RecvBlockResult.nonSequential, s)
      else if jstr m.previousBlockHash ≠ localLastHash s then (RecvBlockResult.linkageMismatch, s)
      else if sha256hex (blockHashInput bi (jstr m.timestamp) (jstr m.merkleRoot)
                (jstr m.previousBlockHash) (jint m.nonce) txs) ≠ jstr m.hash then
        (RecvBlockResult.hashMismatch, s)
      else if calculateMerkleRoot txs ≠ jstr m.merkleRoot then
        (RecvBlockResult.merkleMismatch, s)
      else
        match addBlockToBlockchain
          { blockIndex := some bi, timestamp := m.timestamp, transactions := txs,
            nonce := m.nonce, hash := m.hash, previousBlockHash := m.previousBlockHash,
            merkleRoot := m.merkleRoot } s with
        | Except.error e => (RecvBlockResult.commitFailed e, s)
        | Except.ok (s1, _) =>
          (RecvBlockResult.accepted,
           removeTransactionsFromMempool (txs.filterMap (fun t => t.transactionId)) s1)
  | _, _ => (RecvBlockResult.missingFields, s)

/-! ## Transaction admission routes (`routes/transactions.js`) -/

/-- The response of `POST /transactions/receive`. -/
inductive RecvTxResult where
  | missingFields
  | hashMismatch
  | duplicateId
  | storageError (e : DbErr)
  | accepted (t : TxMsg)
deriving DecidableEq, Repr

/-- `POST /transactions/receive`: require the five mandatory fields, recompute
the canonical hash, admit through `createTransaction`; a violated
`transaction_id` uniqueness constraint is reported as the distinct duplicate
(409) response. -/
def receiveTransaction (ctx : GenCtx) (m : TxMsg) (s : NodeState) :
    RecvTxResult × NodeState :=
  if falsyStr m.transactionId || falsyStr m.timestamp || falsyStr m.rowHash ||
     falsyStr m.rawDataJson || m.projId.isNone then
    (RecvTxResult.missingFields, s)
  else if sha256hex (jstr m.transactionId ++ jstr m.timestamp ++ jstr m.rawDataJson)
          ≠ jstr m.rowHash then
    (RecvTxResult.hashMismatch, s)
  else
    match createTransaction ctx m s with
    | Except.error (DbErr.uniqueViolation "mempool_transactions.transaction_id") =>
      (RecvTxResult.duplicateId, s)
    | Except.error e => (RecvTxResult.storageError e, s)
    | Except.ok (t, s1) => (RecvTxResult.accepted t, s1)

/-- The response of `POST /transactions/submit`. -/
inductive SubmitResult where
  | created (t : TxMsg)
  | storageError (e : DbErr)
  | broadcastFailed (t : TxMsg)
deriving DecidableEq, Repr

/-- `POST /transactions/submit`: create locally, then broadcast to every
peer; the `Promise.all` over the peer calls has no per-destination catch, so
one failed peer rejects it and the route answers 500 — after the local
insert has already happened. -/
def submitTransaction (ctx : GenCtx) (m : TxMsg) (peerOk : List Bool) (s : NodeState) :
    SubmitResult × NodeState :=
  match createTransaction ctx m s with
  | Except.error e => (SubmitResult.storageError e, s)
  | Except.ok (t, s1) =>
    if peerOk.all (fun x => x) then (SubmitResult.created t, s1)
    else (SubmitResult.broadcastFailed t, s1)

/-! ## Startup chain synchronization (`index.js` lines 52-79) -/

/-- The block object a stored block yields when served by `/blocks/chain` and
handed back to `addBlockToBlockchain` during sync: all scalar fields present,
the transactions only in their stored lightweight form. -/
def blockInOfStored (b : Block) : BlockIn :=
  { blockIndex := some b.blockIndex, timestamp := some b.timestamp,
    transactions := b.transactions, nonce := some b.nonce, hash := some b.hash,
    previousBlockHash := some b.previousBlockHash, merkleRoot := some b.merkleRoot }

/-- The sync loop: apply each fetched block through `addBlockToBlockchain`,
then prune its transaction ids from the mempool; the first storage error
aborts the loop (the surrounding catch only logs it), keeping the blocks
applied so far. -/
def syncLoop : List Block → NodeState → Option DbErr × NodeState
  | [], s => (none, s)
  | b :: rest, s =>
    match addBlockToBlockchain (blockInOfStored b) s with
    | Except.error e => (some e, s)
    | Except.ok (s1, _) =>
      syncLoop rest
        (removeTransactionsFromMempool (b.transactions.filterMap (fun t => t.transactionId)) s1)

/-! ## Round-trip recomputation of stored block commitments -/

/-- Recompute a stored block's merkle root from its own transaction list. -/
def recomputeMerkleRoot (b : Block) : String := calculateMerkleRoot b.transactions

/-- Recompute a stored block's header hash from its own fields. -/
def recomputeHash (b : Block) : String :=
  sha256hex (blockHashInput b.blockIndex b.timestamp b.merkleRoot b.previousBlockHash
    (toString b.nonce) b.transactions)

/-- The round-trip property of claim C1. -/
def roundTrips (b : Block) : Prop :=
  recomputeMerkleRoot b = b.merkleRoot ∧ recomputeHash b = b.hash

instance (b : Block) : Decidable (roundTrips b) :=
  inferInstanceAs (Decidable (_ ∧ _))

/-! ## Concrete fixtures used by the witnesses and counterexamples -/

/-- A fixed ISO timestamp standing in for `new Date().toISOString()`. -/
def ts0 : String := "2026-01-01T00:00:00.000Z"

/-- A freshly initialized non-authority node: all tables empty. -/
def emptyState : NodeState := { chain := [], mempool := [], confirmed := [] }

/-- A freshly initialized authority node: only the genesis block. -/
def genesisState : NodeState := { chain := [mkGenesis ts0], mempool := [], confirmed := [] }

/-- A generation context: node identity `'0'`, fixed generated id and clock. -/
def ctx0 : GenCtx := { genId := "gen", genTs := ts0, theProj := some "0" }

/-- A pending transaction sitting in a mempool. -/
def row1 : MemRow :=
  { transactionId := "t1", projId := "1", timestamp := ts0, submitterId := "alice",
    rawDataJson := "x", rowHash := "h1" }

/-- A node whose mempool holds exactly `row1`. -/
def commitState : NodeState := { chain := [], mempool := [row1], confirmed := [] }

/-- A block containing `row1`'s transaction, handed to the commit operation. -/
def commitBlockIn : BlockIn :=
  { blockIndex := some 0, timestamp := some ts0, transactions := [memToMsg row1],
    nonce := some 0, hash := some "H", previousBlockHash := some "0",
    merkleRoot := some "M" }

/-- The state and stored block a successful commit of `commitBlockIn` yields. -/
def commitResult : NodeState × Block :=
  ((addBlockToBlockchain commitBlockIn commitState).toOption).getD (commitState, mkGenesis ts0)

/-- A transaction whose leaf digest is the two-character string `"ab"`. -/
def leafTx : TxMsg := { rowHash := some "ab" }

/-- The merkle root of the empty transaction list. -/
def nextMerkle : String := calculateMerkleRoot []

/-- A correctly computed header hash for an empty next block on top of the
genesis chain. -/
def nextHash : String :=
  sha256hex (blockHashInput 1 ts0 nextMerkle (mkGenesis ts0).hash (jint (some 0)) [])

/-- A fully valid next block for `genesisState`, carrying no transactions. -/
def nextMsg : BlockMsg :=
  { blockIndex := some 1, timestamp := some ts0, transactions := some [],
    merkleRoot := some nextMerkle, previousBlockHash := some (mkGenesis ts0).hash,
    nonce := some 0, hash := some nextHash }

/-- The state after `genesisState` accepts `nextMsg`. -/
def acceptedState : NodeState := (receiveBlock nextMsg genesisState).2

/-- Five pending transactions with ascending timestamps. -/
def demoRow (i : Nat) : MemRow :=
  { transactionId := "t" ++ toString i, projId := "1",
    timestamp := "2025-12-31T00:00:0" ++ toString i ++ ".000Z",
    submitterId := "alice", rawDataJson := "\x7b\x7d", rowHash := "h" ++ toString i }

/-- The authority right after initialization, with a full mempool. -/
def authorityStart : NodeState :=
  { chain := [mkGenesis ts0],
    mempool := [demoRow 1, demoRow 2, demoRow 3, demoRow 4, demoRow 5],
    confirmed := [] }

/-- The authority's stored chain after one successful mining tick: genesis
plus one block whose `transactions` column holds only the lightweight pairs.
This is what `GET /blocks/chain` serves to a synchronizing node. -/
def authorityChain : List Block := (mineBlockInternal ts0 [] authorityStart).2.chain

/-- Synchronizing a fresh node against `authorityChain`. -/
def syncResult : Option DbErr × NodeState := syncLoop authorityChain emptyState

/-- The canonical empty JSON object. -/
def rawEmpty : String := "\x7b\x7d"

/-- A remote transaction carrying the five checked fields and a consistent
`rowHash`, but no `submitterId`. -/
def noSubTx : TxMsg :=
  { transactionId := some "tc8", timestamp := some ts0, projId := some "2",
    rawDataJson := some rawEmpty,
    rowHash := some (sha256hex ("tc8" ++ ts0 ++ rawEmpty)) }

/-- A fully-formed valid remote transaction. -/
def fullTx : TxMsg :=
  { transactionId := some "tg8", timestamp := some ts0, projId := some "2",
    submitterId := some "alice", rawDataJson := some rawEmpty,
    rowHash := some (sha256hex ("tg8" ++ ts0 ++ rawEmpty)) }

/-- The state after admitting `fullTx` once. -/
def oneTxState : NodeState := (receiveTransaction ctx0 fullTx emptyState).2

/-- A locally submitted transaction supplying every generated field. -/
def plainTx : TxMsg :=
  { transactionId := some "t9", projId := some "1", timestamp := some ts0,
    submitterId := some "alice", rawDataJson := some "x", rowHash := some "h9" }

/-- The transaction object `createTransaction` returns for `plainTx`. -/
def plainRet : TxMsg :=
  { transactionId := some "t9", timestamp := some ts0, rowHash := some "h9",
    projId := some "1", rawDataJson := some "x", submitterId := some "alice" }

/-- The local state after submitting `plainTx`. -/
def plainState : NodeState := (submitTransaction ctx0 plainTx [] emptyState).2

/-- A local submission whose supplied `rowHash` is not the canonical
recomputation. -/
def unverifiedTx : TxMsg :=
  { transactionId := some "t10", projId := some "3", timestamp := some ts0,
    submitterId := some "bob", rawDataJson := some "x", rowHash := some "deadbeef" }

/-- The row and returned object `finalizeTransaction` produces for
`unverifiedTx`. -/
def unverifiedPair : MemRow × TxMsg :=
  (finalizeTransaction ctx0 unverifiedTx).toOption.getD (row1, {})

/-! ## Helper lemmas -/

lemma lightTx_rowHash (t : TxMsg) : (lightTx t).rowHash = t.rowHash := rfl

lemma lightTx_transactionId (t : TxMsg) : (lightTx t).transactionId = t.transactionId := rfl

/-- The merkle root only reads each transaction's `rowHash`, so the stored
lightweight form commits to the same root. -/
lemma calculateMerkleRoot_map_lightTx (txs : List TxMsg) :
    calculateMerkleRoot (txs.map lightTx) = calculateMerkleRoot txs := by
  simp [calculateMerkleRoot, List.map_map, Function.comp_def, lightTx]

lemma jsonIdHash_lightTx (t : TxMsg) : jsonIdHash (lightTx t) = jsonIdHash t := rfl

/-- The header-hash transaction list only reads `transactionId` and
`rowHash`, so the stored lightweight form hashes identically. -/
lemma jsonIdHashList_map_lightTx (txs : List TxMsg) :
    jsonIdHashList (txs.map lightTx) = jsonIdHashList txs := by
  simp [jsonIdHashList, List.map_map, Function.comp_def, jsonIdHash_lightTx]

lemma getLastBlock_foldl_mem :
    ∀ (l : List Block) (acc : Option Block) (m : Block),
      l.foldl maxB acc = some m → acc = some m ∨ m ∈ l := by
  intro l
  induction l with
  | nil => intro acc m h; exact Or.inl h
  | cons b l ih =>
    intro acc m h
    rcases ih (maxB acc b) m h with h1 | h1
    · unfold maxB at h1
      rcases acc with _ | a
      · exact Or.inr (by simp_all)
      · by_cases hgt : b.blockIndex > a.blockIndex
        · simp only [if_pos hgt] at h1
          exact Or.inr (by simp_all)
        · simp only [if_neg hgt] at h1
          exact Or.inl h1
    · exact Or.inr (List.mem_cons_of_mem _ h1)

/-- The block `getLastBlock` returns is a stored block. -/
lemma getLastBlock_mem {l : List Block} {m : Block} (h : getLastBlock l = some m) :
    m ∈ l := by
  rcases getLastBlock_foldl_mem l none m h with h1 | h1
  · exact absurd h1 (by simp)
  · exact h1

lemma getLastBlock_foldl_le :
    ∀ (l : List Block) (acc : Option Block) (m : Block),
      l.foldl maxB acc = some m →
      (∀ b ∈ l, b.blockIndex ≤ m.blockIndex) ∧
      (∀ a, acc = some a → a.blockIndex ≤ m.blockIndex) := by
  intro l
  induction l with
  | nil =>
    intro acc m h
    refine ⟨by simp, fun a ha => ?_⟩
    simp only [List.foldl_nil] at h
    rw [ha] at h
    simp_all
  | cons b l ih =>
    intro acc m h
    have hstep := ih (maxB acc b) m h
    have hb : b.blockIndex ≤ m.blockIndex := by
      rcases acc with _ | a
      · exact hstep.2 b rfl
      · by_cases hgt : b.blockIndex > a.blockIndex
        · exact hstep.2 b (by simp [maxB, if_pos hgt])
        · have ha := hstep.2 a (by simp [maxB, if_neg hgt])
          omega
    refine ⟨fun x hx => ?_, fun a ha => ?_⟩
    · rcases List.mem_cons.mp hx with rfl | hx
      · exact hb
      · exact hstep.1 x hx
    · rcases acc with _ | a0
      · cases ha
      · cases ha
        by_cases hgt : b.blockIndex > a.blockIndex
        · have := hstep.2 b (by simp [maxB, if_pos hgt]); omega
        · exact hstep.2 a (by simp [maxB, if_neg hgt])

/-- Every stored block's index is bounded by the last block's. -/
lemma getLastBlock_le {l : List Block} {m : Block} (h : getLastBlock l = some m) :
    ∀ b ∈ l, b.blockIndex ≤ m.blockIndex :=
  (getLastBlock_foldl_le l none m h).1

/-- Appending a block of strictly larger index makes it the last block. -/
lemma getLastBlock_append_gt {l : List Block} {b : Block}
    (h : ∀ x ∈ l, x.blockIndex < b.blockIndex) :
    getLastBlock (l ++ [b]) = some b := by
  unfold getLastBlock
  rw [List.foldl_append]
  rcases hl : l.foldl maxB none with _ | m
  · rfl
  · have hm : m ∈ l := getLastBlock_mem (by simpa [getLastBlock] using hl)
    have : m.blockIndex < b.blockIndex := h m hm
    simp [maxB, this]

/-- A successful confirmed-store insert appends exactly one row, carrying the
transaction's id and the committing block's rowid. -/
lemma insertConfirmed_ok {bid : Nat} {rows rows' : List ConfRow} {t : TxMsg}
    (h : insertConfirmed bid rows t = Except.ok rows') :
    ∃ r, rows' = rows ++ [r] ∧ some r.transactionId = t.transactionId ∧ r.blockId = bid := by
  unfold insertConfirmed at h
  split at h <;> try exact Except.noConfusion h
  split at h
  · exact Except.noConfusion h
  · cases h
    exact ⟨_, rfl, by simp_all, rfl⟩

/-- A successful sequence of confirmed-store inserts appends one row per
transaction, in order, each tagged with the committing block's rowid. -/
lemma insertConfirmedAll_ok :
    ∀ {txs : List TxMsg} {bid : Nat} {rows rows' : List ConfRow},
      insertConfirmedAll bid rows txs = Except.ok rows' →
      ∃ news, rows' = rows ++ news ∧
        news.map (fun r => some r.transactionId) = txs.map (fun t => t.transactionId) ∧
        ∀ r ∈ news, r.blockId = bid := by
  intro txs
  induction txs with
  | nil =>
    intro bid rows rows' h
    unfold insertConfirmedAll at h
    cases h
    exact ⟨[], by simp, by simp, by simp⟩
  | cons t ts ih =>
    intro bid rows rows' h
    unfold insertConfirmedAll at h
    split at h
    · exact absurd h (by simp)
    · next rows1 hins =>
      obtain ⟨r, rfl, hid, hbid⟩ := insertConfirmed_ok hins
      obtain ⟨news, rfl, hids, hbids⟩ := ih h
      refine ⟨r :: news, by simp, by simp_all, ?_⟩
      intro x hx
      rcases List.mem_cons.mp hx with rfl | hx
      · exact hbid
      · exact hbids x hx

/-- Characterization of a successful `addBlockToBlockchain`: every scalar
field was present and is stored verbatim, the stored block is appended to the
chain with its transactions in lightweight form, the mempool is untouched,
and the confirmed store gains the block's transactions. -/
lemma addBlockToBlockchain_ok {b : BlockIn} {s s' : NodeState} {blk : Block}
    (h : addBlockToBlockchain b s = Except.ok (s', blk)) :
    b.blockIndex = some blk.blockIndex ∧ b.timestamp = some blk.timestamp ∧
    b.nonce = some blk.nonce ∧ b.hash = some blk.hash ∧
    b.previousBlockHash = some blk.previousBlockHash ∧
    b.merkleRoot = some blk.merkleRoot ∧
    blk.transactions = b.transactions.map lightTx ∧
    s'.chain = s.chain ++ [blk] ∧ s'.mempool = s.mempool ∧
    insertConfirmedAll (s.chain.length + 1) s.confirmed b.transactions
      = Except.ok s'.confirmed := by
  unfold addBlockToBlockchain at h
  split at h <;> try exact Except.noConfusion h
  split at h
  · exact Except.noConfusion h
  · split at h
    · exact Except.noConfusion h
    · next confirmed hconf =>
      cases h
      simp_all

/-- Every branch of the validation pipeline other than full acceptance
leaves the node state untouched. -/
lemma receiveBlock_cases (m : BlockMsg) (s : NodeState) :
    (receiveBlock m s).1 = RecvBlockResult.accepted ∨ (receiveBlock m s).2 = s := by
  rcases hbi : m.blockIndex with _ | bi <;> rcases htx : m.transactions with _ | txs <;>
    simp only [receiveBlock, hbi, htx]
  · exact Or.inr trivial
  · exact Or.inr trivial
  · exact Or.inr trivial
  · split
    · exact Or.inr rfl
    · split
      · exact Or.inr rfl
      · split
        · exact Or.inr rfl
        · split
          · exact Or.inr rfl
          · split
            · exact Or.inr rfl
            · split
              · exact Or.inr rfl
              · split
                · exact Or.inr rfl
                · exact Or.inl rfl

/-- What must have held when the validation pipeline accepted a block. -/
lemma receiveBlock_accepted {m : BlockMsg} {s s' : NodeState}
    (h : receiveBlock m s = (RecvBlockResult.accepted, s')) :
    ∃ bi txs s1 blk,
      m.blockIndex = some bi ∧ m.transactions = some txs ∧
      (falsyStr m.timestamp || falsyStr m.merkleRoot ||
        falsyStr m.previousBlockHash || falsyStr m.hash) = false ∧
      bi = localLastIndex s + 1 ∧
      jstr m.previousBlockHash = localLastHash s ∧
      sha256hex (blockHashInput bi (jstr m.timestamp) (jstr m.merkleRoot)
        (jstr m.previousBlockHash) (jint m.nonce) txs) = jstr m.hash ∧
      calculateMerkleRoot txs = jstr m.merkleRoot ∧
      addBlockToBlockchain
        { blockIndex := some bi, timestamp := m.timestamp, transactions := txs,
          nonce := m.nonce, hash := m.hash, previousBlockHash := m.previousBlockHash,
          merkleRoot := m.merkleRoot } s = Except.ok (s1, blk) ∧
      s' = removeTransactionsFromMempool (txs.filterMap (fun t => t.transactionId)) s1 := by
  rcases hbi : m.blockIndex with _ | bi <;> rcases htx : m.transactions with _ | txs <;>
    simp only [receiveBlock, hbi, htx] at h
  · simp at h
  · simp at h
  · simp at h
  · split at h
    · simp at h
    · split at h
      · simp at h
      · split at h
        · simp at h
        · split at h
          · simp at h
          · split at h
            · simp at h
            · split at h
              · simp at h
              · split at h
                · simp at h
                · next s1 blk hcommit =>
                  refine ⟨bi, txs, s1, blk, rfl, rfl, by simp_all, by omega, ?_, ?_, ?_, hcommit, ?_⟩
                  all_goals simp_all

lemma removeFromMempool_chain (ids : List String) (s : NodeState) :
    (removeTransactionsFromMempool ids s).chain = s.chain := rfl

lemma toString_int_zero : toString (0 : Int) = "0" := by decide

lemma blockHashInput_map_lightTx (bi : Int) (ts mr ph nn : String) (txs : List TxMsg) :
    blockHashInput bi ts mr ph nn (txs.map lightTx) = blockHashInput bi ts mr ph nn txs := by
  simp [blockHashInput, jsonIdHashList_map_lightTx]

/-- A stored block whose commitments were computed from the full transaction
list it was stored with satisfies the round-trip property. -/
lemma roundTrips_of_fields {blk : Block} {txs : List TxMsg}
    (htx : blk.transactions = txs.map lightTx)
    (hmr : calculateMerkleRoot txs = blk.merkleRoot)
    (hh : sha256hex (blockHashInput blk.blockIndex blk.timestamp blk.merkleRoot
      blk.previousBlockHash (toString blk.nonce) txs) = blk.hash) :
    roundTrips blk := by
  constructor
  · rw [recomputeMerkleRoot, htx, calculateMerkleRoot_map_lightTx, hmr]
  · rw [recomputeHash, htx, blockHashInput_map_lightTx]
    exact hh

/-- The block a successful mining commit stores satisfies the round-trip
property. -/
lemma mined_block_roundTrips {now : String} {s s1 : NodeState} {blk : Block}
    (hok : addBlockToBlockchain (buildCandidateBlock now s) s = Except.ok (s1, blk)) :
    roundTrips blk := by
  obtain ⟨hbi, hts, hnn, hh, hph, hmr, htx, _, _, _⟩ := addBlockToBlockchain_ok hok
  simp only [buildCandidateBlock, Option.some.injEq] at hbi hts hnn hh hph hmr htx
  refine roundTrips_of_fields htx ?_ ?_
  · rw [← hmr]
  · rw [← hbi, ← hts, ← hnn, ← hph, ← hmr, toString_int_zero, ← hh]

/-- Either a mining tick leaves the chain alone, or it commits exactly the
candidate block. -/
lemma mineBlockInternal_chain_cases (now : String) (peerOk : List Bool) (s : NodeState) :
    (mineBlockInternal now peerOk s).2.chain = s.chain ∨
    ∃ s1 blk, addBlockToBlockchain (buildCandidateBlock now s) s = Except.ok (s1, blk) ∧
      (mineBlockInternal now peerOk s).2.chain = s1.chain := by
  unfold mineBlockInternal
  split
  · exact Or.inl rfl
  · split
    · exact Or.inl rfl
    · next s1 snd heq =>
      exact Or.inr ⟨s1, snd, heq, rfl⟩

/-- The block a validated reception stores satisfies the round-trip property,
and the chain grows by exactly that block. -/
lemma receiveBlock_accepted_state {m : BlockMsg} {s s' : NodeState}
    (h : receiveBlock m s = (RecvBlockResult.accepted, s')) :
    ∃ blk, s'.chain = s.chain ++ [blk] ∧ roundTrips blk ∧
      blk.blockIndex = localLastIndex s + 1 ∧
      m.blockIndex = some blk.blockIndex ∧ (∃ txs, m.transactions = some txs) ∧
      (falsyStr m.timestamp || falsyStr m.merkleRoot ||
        falsyStr m.previousBlockHash || falsyStr m.hash) = false := by
  obtain ⟨bi, txs, s1, blk, hbi, htxs, hcomplete, hseq, hlink, hhash, hmerkle, hcommit, hstate⟩ :=
    receiveBlock_accepted h
  obtain ⟨fbi, fts, fnn, fh, fph, fmr, ftx, fchain, _, _⟩ := addBlockToBlockchain_ok hcommit
  dsimp only at fbi fts fnn fh fph fmr ftx
  simp only [Option.some.injEq] at fbi
  have hts' : jstr m.timestamp = blk.timestamp := by rw [fts]; rfl
  have hnn' : jint m.nonce = toString blk.nonce := by rw [fnn]; rfl
  have hh' : jstr m.hash = blk.hash := by rw [fh]; rfl
  have hph' : jstr m.previousBlockHash = blk.previousBlockHash := by rw [fph]; rfl
  have hmr' : jstr m.merkleRoot = blk.merkleRoot := by rw [fmr]; rfl
  refine ⟨blk, ?_, ?_, ?_, ?_, ⟨txs, htxs⟩, hcomplete⟩
  · rw [hstate, removeFromMempool_chain, fchain]
  · refine roundTrips_of_fields ftx ?_ ?_
    · rw [hmerkle, hmr']
    · rw [← fbi, ← hts', ← hnn', ← hph', ← hmr', hhash, hh']
  · rw [← fbi, hseq]
  · rw [hbi, fbi]


/-- Byte-wise lexicographic comparison is total. -/
lemma bytesLe_total : ∀ xs ys : List Nat, bytesLe xs ys = true ∨ bytesLe ys xs = true := by
  intro xs
  induction xs with
  | nil => intro ys; exact Or.inl rfl
  | cons x xs ih =>
    intro ys
    cases ys with
    | nil => exact Or.inr rfl
    | cons y ys =>
      by_cases h1 : x < y
      · exact Or.inl (by simp [bytesLe, h1])
      · by_cases h2 : y < x
        · exact Or.inr (by simp [bytesLe, h2])
        · rcases ih ys with h | h
          · exact Or.inl (by simp [bytesLe, h1, h2, h])
          · exact Or.inr (by simp [bytesLe, h1, h2, h])

/-- Byte-wise lexicographic comparison is transitive. -/
lemma bytesLe_trans : ∀ xs ys zs : List Nat,
    bytesLe xs ys = true → bytesLe ys zs = true → bytesLe xs zs = true := by
  intro xs
  induction xs with
  | nil => intro ys zs _ _; rfl
  | cons x xs ih =>
    intro ys zs hxy hyz
    cases ys with
    | nil => simp [bytesLe] at hxy
    | cons y ys =>
      cases zs with
      | nil => simp [bytesLe] at hyz
      | cons z zs =>
        simp only [bytesLe] at hxy hyz ⊢
        split_ifs at hxy hyz ⊢ <;>
          first
            | rfl
            | (exact hxy)
            | (exact hyz)
            | (exact ih ys zs hxy hyz)
            | (exfalso; omega)
            | simp_all

/-! ## Claim theorems -/

set_option maxRecDepth 1000000

set_option maxHeartbeats 1000000

/-- C1 counterexample: the genesis block is stored with `hash` and
`merkleRoot` that are fixed digests of constant strings; recomputing the
merkle root from its (empty) transaction list yields the
`empty_merkle_root_placeholder` digest instead, so the round-trip property
fails on the genesis block. -/
theorem c1_counterexample : ¬ roundTrips (mkGenesis ts0) := by decide

/-- C1 (amended): for every block the node stores through the mining path or
through the validated-reception path, recomputing the merkle root from the
block's own transaction list and the header hash from its own fields
reproduces the stored `merkleRoot` and `hash`; the genesis block is the
exception, its two commitments being fixed constants. -/
theorem c1_roundtrip_of_committed_blocks (now : String) (peerOk : List Bool)
    (m : BlockMsg) (s : NodeState) (b : Block) :
    (b ∈ (mineBlockInternal now peerOk s).2.chain → b ∈ s.chain ∨ roundTrips b) ∧
    (b ∈ (receiveBlock m s).2.chain → b ∈ s.chain ∨ roundTrips b) := by
  constructor
  · intro hb
    rcases mineBlockInternal_chain_cases now peerOk s with hc | ⟨s1, blk, hok, hc⟩
    · rw [hc] at hb
      exact Or.inl hb
    · obtain ⟨_, _, _, _, _, _, _, hchain1, _, _⟩ := addBlockToBlockchain_ok hok
      rw [hc, hchain1] at hb
      rcases List.mem_append.mp hb with hb | hb
      · exact Or.inl hb
      · rw [List.mem_singleton.mp hb]
        exact Or.inr (mined_block_roundTrips hok)
  · intro hb
    rcases hres : receiveBlock m s with ⟨r, s'⟩
    rw [hres] at hb
    by_cases hacc : r = RecvBlockResult.accepted
    · subst hacc
      obtain ⟨blk, hchain, hrt, _, _, _, _⟩ := receiveBlock_accepted_state hres
      rw [show (RecvBlockResult.accepted, s').2 = s' from rfl, hchain] at hb
      rcases List.mem_append.mp hb with hb | hb
      · exact Or.inl hb
      · rw [List.mem_singleton.mp hb]
        exact Or.inr hrt
    · rcases receiveBlock_cases m s with h1 | h1
      · rw [hres] at h1
        exact absurd h1 hacc
      · rw [hres] at h1
        rw [show (r, s').2 = s' from rfl] at h1 hb
        rw [h1] at hb
        exact Or.inl hb

/-- C1 witness: instantiating the round-trip theorem on the authority's
genesis chain receiving an empty message. -/
theorem c1_roundtrip_witness :
    mkGenesis ts0 ∈ genesisState.chain ∨ roundTrips (mkGenesis ts0) :=
  (c1_roundtrip_of_committed_blocks ts0 [] {} genesisState (mkGenesis ts0)).2 (by decide)

/-- C3 counterexample: on the single-leaf list with digest `"ab"` the merkle
computation returns the leaf itself, which is not `sha256("ab" ++ "ab")`. -/
theorem c3_counterexample :
    calculateMerkleRoot [leafTx] = "ab" ∧ sha256hex ("ab" ++ "ab") ≠ "ab" := by decide

/-- C3 (amended): the merkle root of a single-transaction list is the leaf
digest itself — the `while` loop never runs — and the duplicate-pad rule
applies only to levels of two or more entries with an odd count, as on a
three-leaf list. -/
theorem c3_singleton_merkle_root (t a b c : TxMsg) :
    calculateMerkleRoot [t] = jstr t.rowHash ∧
    calculateMerkleRoot [a, b, c] =
      sha256hex (sha256hex (jstr a.rowHash ++ jstr b.rowHash) ++
        sha256hex (jstr c.rowHash ++ jstr c.rowHash)) := by
  constructor
  · rfl
  · simp [calculateMerkleRoot, merkleLoop, merkleStep, pairUp]

/-- C5: a received block failing any validation stage is answered with that
stage's rejection and mutates neither the chain nor the mempool; in
particular a linkage failure at the right position in the pipeline is
rejected as the linkage mismatch with the state unchanged. -/
theorem c5_validation_failure_no_mutation (m : BlockMsg) (s : NodeState) :
    ((receiveBlock m s).1 = RecvBlockResult.missingFields ∨
     (receiveBlock m s).1 = RecvBlockResult.nonSequential ∨
     (receiveBlock m s).1 = RecvBlockResult.linkageMismatch ∨
     (receiveBlock m s).1 = RecvBlockResult.hashMismatch ∨
     (receiveBlock m s).1 = RecvBlockResult.merkleMismatch →
       (receiveBlock m s).2 = s) ∧
    (∀ bi txs, m.blockIndex = some bi → m.transactions = some txs →
      (falsyStr m.timestamp || falsyStr m.merkleRoot ||
        falsyStr m.previousBlockHash || falsyStr m.hash) = false →
      bi = localLastIndex s + 1 →
      jstr m.previousBlockHash ≠ localLastHash s →
      receiveBlock m s = (RecvBlockResult.linkageMismatch, s)) := by
  constructor
  · intro h
    rcases receiveBlock_cases m s with h1 | h1
    · rcases h with h | h | h | h | h <;> rw [h1] at h <;> exact RecvBlockResult.noConfusion h
    · exact h1
  · intro bi txs hbi htxs hcomplete hseq hlink
    have hnotstale : ¬ (bi ≤ localLastIndex s) := by omega
    have hnotgap : ¬ (bi ≠ localLastIndex s + 1) := fun hne => hne hseq
    simp only [receiveBlock, hbi, htxs, hcomplete, Bool.false_eq_true, if_false,
      if_neg hnotstale, if_neg hnotgap, if_pos hlink]

/-- C5 witness: a block message with every field absent is rejected at the
completeness stage without touching the state. -/
theorem c5_validation_failure_witness : (receiveBlock {} emptyState).2 = emptyState :=
  (c5_validation_failure_no_mutation {} emptyState).1 (Or.inl (by decide))

lemma maxB_isSome (acc : Option Block) (b : Block) : (maxB acc b).isSome := by
  cases acc <;> simp only [maxB]
  · simp
  · split <;> simp

lemma getLastBlock_foldl_ne_none :
    ∀ (l : List Block) (acc : Option Block), l.foldl maxB acc = none → acc = none ∧ l = [] := by
  intro l
  induction l with
  | nil => intro acc h; exact ⟨h, rfl⟩
  | cons b l ih =>
    intro acc h
    have := (ih (maxB acc b) h).1
    have hsome := maxB_isSome acc b
    rw [this] at hsome
    simp at hsome

/-- Every stored block's index is bounded by the node's last index. -/
lemma mem_le_localLastIndex {s : NodeState} {x : Block} (hx : x ∈ s.chain) :
    x.blockIndex ≤ localLastIndex s := by
  unfold localLastIndex
  rcases hgl : getLastBlock s.chain with _ | lb
  · have := (getLastBlock_foldl_ne_none s.chain none hgl).2
    rw [this] at hx
    cases hx
  · exact getLastBlock_le hgl x hx

/-- C2 counterexample: a successful commit of a block containing the mempool's
only transaction leaves that transaction id in the mempool — step (c) of the
claimed three-step atomic operation is not part of `addBlockToBlockchain`. -/
theorem c2_counterexample :
    (addBlockToBlockchain commitBlockIn commitState).toOption.map
        (fun p => p.1.mempool.map (fun r => r.transactionId)) = some ["t1"] ∧
    commitBlockIn.transactions.filterMap (fun t => t.transactionId) = ["t1"] := by decide

/-- C2 (amended): `addBlockToBlockchain` atomically performs steps (a) and
(b) — on success the chain gains exactly the stored block and the confirmed
store gains exactly one row per block transaction, tagged with the new
block's rowid, while failure leaves the state unchanged — but it never
touches the mempool; removing the included ids from the mempool is a
separate, subsequent operation at every call site. -/
theorem c2_commit_atomicity (b : BlockIn) (s s' : NodeState) (blk : Block)
    (h : addBlockToBlockchain b s = Except.ok (s', blk)) :
    s'.chain = s.chain ++ [blk] ∧ s'.mempool = s.mempool ∧
    ∃ rows, s'.confirmed = s.confirmed ++ rows ∧
      rows.map (fun r => some r.transactionId) = b.transactions.map (fun t => t.transactionId) ∧
      ∀ r ∈ rows, r.blockId = s.chain.length + 1 := by
  obtain ⟨_, _, _, _, _, _, _, hchain, hmem, hconf⟩ := addBlockToBlockchain_ok h
  obtain ⟨news, hnews, hids, hbids⟩ := insertConfirmedAll_ok hconf
  exact ⟨hchain, hmem, news, hnews, hids, hbids⟩

/-- C2 witness: the concrete commit of `commitBlockIn` on `commitState`. -/
theorem c2_commit_atomicity_witness :
    commitResult.1.chain = commitState.chain ++ [commitResult.2] ∧
    commitResult.1.mempool = commitState.mempool ∧
    ∃ rows, commitResult.1.confirmed = commitState.confirmed ++ rows ∧
      rows.map (fun r => some r.transactionId)
        = commitBlockIn.transactions.map (fun t => t.transactionId) ∧
      ∀ r ∈ rows, r.blockId = commitState.chain.length + 1 :=
  c2_commit_atomicity commitBlockIn commitState commitResult.1 commitResult.2 (by rfl)

/-- C4: an idle tick (fewer than five pending transactions) returns the
"not enough" notice with the state unchanged; otherwise the candidate block
the producer assembles takes exactly the first five transactions of the
stable timestamp sort of the mempool — a sorted permutation of it — with
`blockIndex` one past the local last block's and `previousBlockHash` the
local last block's hash. -/
theorem c4_producer_tick (now : String) (peerOk : List Bool) (s : NodeState) (lb : Block) :
    (s.mempool.length < 5 →
      mineBlockInternal now peerOk s =
        (Except.ok (MineOutcome.notEnough s.mempool.length), s)) ∧
    List.Sorted tsLE (sortByTimestamp s.mempool) ∧
    (sortByTimestamp s.mempool).Perm s.mempool ∧
    getTransactionsForBlock 5 s.mempool = (sortByTimestamp s.mempool).take 5 ∧
    (getLastBlock s.chain = some lb →
      (buildCandidateBlock now s).blockIndex = some (lb.blockIndex + 1) ∧
      (buildCandidateBlock now s).previousBlockHash = some lb.hash ∧
      (buildCandidateBlock now s).transactions =
        (getTransactionsForBlock 5 s.mempool).map memToMsg) := by
  refine ⟨?_, ?_, ?_, rfl, ?_⟩
  · intro h
    unfold mineBlockInternal
    rw [if_pos h]
  · haveI : IsTotal MemRow tsLE := ⟨fun a b => bytesLe_total _ _⟩
    haveI : IsTrans MemRow tsLE := ⟨fun _ _ _ hab hbc => bytesLe_trans _ _ _ hab hbc⟩
    exact List.sorted_insertionSort tsLE s.mempool
  · exact List.perm_insertionSort tsLE s.mempool
  · intro hlb
    refine ⟨?_, ?_, rfl⟩
    · simp [buildCandidateBlock, localLastIndex, hlb]
    · simp [buildCandidateBlock, localLastHash, hlb]

/-- C4 witness: the authority's first tick on an empty mempool idles, and on
the genesis chain the candidate block would carry index 1. -/
theorem c4_producer_tick_witness :
    mineBlockInternal ts0 [] genesisState = (Except.ok (MineOutcome.notEnough 0), genesisState) ∧
    (buildCandidateBlock ts0 genesisState).blockIndex = some 1 := by
  have h := c4_producer_tick ts0 [] genesisState (mkGenesis ts0)
  refine ⟨h.1 (by decide), ?_⟩
  have h2 := (h.2.2.2.2 (by decide)).1
  simpa [mkGenesis] using h2

/-- C6: a received block whose index does not exceed the local last index is
answered with the silent no-op (a success, not an error) and the state is
unchanged; and after a block is accepted, receiving the very same message
again is such a stale no-op, the chain having grown by exactly one block. -/
theorem c6_stale_reception_idempotent (m : BlockMsg) (s s' : NodeState) :
    (∀ bi txs, m.blockIndex = some bi → m.transactions = some txs →
      (falsyStr m.timestamp || falsyStr m.merkleRoot ||
        falsyStr m.previousBlockHash || falsyStr m.hash) = false →
      bi ≤ localLastIndex s →
      receiveBlock m s = (RecvBlockResult.staleIgnored, s)) ∧
    (receiveBlock m s = (RecvBlockResult.accepted, s') →
      s'.chain.length = s.chain.length + 1 ∧
      receiveBlock m s' = (RecvBlockResult.staleIgnored, s')) := by
  constructor
  · intro bi txs hbi htxs hcomplete hstale
    simp only [receiveBlock, hbi, htxs, hcomplete, Bool.false_eq_true, if_false]
    rw [if_pos hstale]
  · intro h
    obtain ⟨blk, hchain, _, hidx, hbi, ⟨txs, htxs⟩, hcomplete⟩ := receiveBlock_accepted_state h
    have hlast : getLastBlock s'.chain = some blk := by
      rw [hchain]
      apply getLastBlock_append_gt
      intro x hx
      have := mem_le_localLastIndex hx
      omega
    have hlli : localLastIndex s' = blk.blockIndex := by
      unfold localLastIndex
      rw [hlast]
    constructor
    · rw [hchain]
      simp
    · simp only [receiveBlock, hbi, htxs, hcomplete, Bool.false_eq_true, if_false]
      rw [if_pos (by omega : blk.blockIndex ≤ localLastIndex s')]

/-- C6 witness: `genesisState` accepts the valid empty block `nextMsg` once,
and the second reception of the same message is the stale no-op. -/
theorem c6_stale_reception_witness :
    acceptedState.chain.length = genesisState.chain.length + 1 ∧
    receiveBlock nextMsg acceptedState = (RecvBlockResult.staleIgnored, acceptedState) :=
  (c6_stale_reception_idempotent nextMsg genesisState acceptedState).2 (by decide)

/-- `finalizeTransaction` on a transaction whose id is supplied non-empty,
whose project id is present, and which carries a `submitterId`, succeeds and
keeps the supplied id, submitter and (non-empty supplied) row hash. -/
lemma finalizeTransaction_ok_parts (ctx : GenCtx) {m : TxMsg} {tid sub : String}
    (hid : m.transactionId = some tid) (hne : tid ≠ "")
    (hproj : ∃ p, m.projId = some p)
    (hsub : m.submitterId = some sub) :
    ∃ row ret, finalizeTransaction ctx m = Except.ok (row, ret) ∧
      row.transactionId = tid ∧ row.submitterId = sub ∧
      (∀ rh, m.rowHash = some rh → rh ≠ "" → row.rowHash = rh ∧ ret.rowHash = some rh) := by
  obtain ⟨p, hp⟩ := hproj
  unfold finalizeTransaction
  rw [if_neg (by simp [hp]), hsub]
  refine ⟨_, _, rfl, ?_, rfl, ?_⟩
  · rw [hid]
    simp [truthyOr, hne]
  · intro rh hrh hrhne
    rw [hrh]
    simp [truthyOr, hrhne]

/-- Bundled consequences of the five-field presence check being passed. -/
lemma presence_of_bundle_false {m : TxMsg}
    (hb : (falsyStr m.transactionId || falsyStr m.timestamp || falsyStr m.rowHash ||
      falsyStr m.rawDataJson || m.projId.isNone) = false) :
    (∀ tid, m.transactionId = some tid → tid ≠ "") ∧
    (∃ p, m.projId = some p) ∧
    (∃ rh, m.rowHash = some rh ∧ rh ≠ "") := by
  simp only [Bool.or_eq_false_iff] at hb
  obtain ⟨⟨⟨⟨h1, _⟩, h3⟩, _⟩, h5⟩ := hb
  refine ⟨?_, ?_, ?_⟩
  · intro tid htid
    rw [htid] at h1
    simpa [falsyStr] using h1
  · rcases hp : m.projId with _ | p
    · rw [hp] at h5
      simp at h5
    · exact ⟨p, rfl⟩
  · rcases hrh : m.rowHash with _ | rh
    · rw [hrh] at h3
      simp [falsyStr] at h3
    · refine ⟨rh, rfl, ?_⟩
      rw [hrh] at h3
      simpa [falsyStr] using h3

/-- C7 (code bug): stored blocks keep only `{transactionId, rowHash}` per
transaction, so when the startup synchronization re-commits the authority's
served chain the insert into `confirmed_transactions` violates its
`NOT NULL projId` constraint on the first non-empty block; the sync aborts
with only the genesis block applied instead of ending with the full fetched
chain. -/
theorem c7_sync_aborts_on_authority_chain :
    syncResult.1 = some (DbErr.notNullViolation "confirmed_transactions.projId") ∧
    syncResult.2.chain.length = 1 ∧
    authorityChain.length = 2 := by decide

/-- C8 counterexample: a remote transaction carrying all five checked fields
and a valid hash, but no `submitterId`, passes the whole validation pipeline
and still is not inserted — the `NOT NULL submitter_id` column rejects it
with a generic storage error, the mempool unchanged. -/
theorem c8_counterexample :
    (receiveTransaction ctx0 noSubTx emptyState).1
        = RecvTxResult.storageError (DbErr.notNullViolation "mempool_transactions.submitter_id") ∧
    (receiveTransaction ctx0 noSubTx emptyState).2 = emptyState := by decide

/-- C8 (amended): remote reception fails with the missing-fields error when
any of the five checked fields is absent, with the hash-mismatch error when
the recomputed canonical hash disagrees with the supplied `rowHash`, and
with the distinct duplicate error when the id is already pending — the
mempool unchanged in each case; a transaction passing all three checks is
inserted provided it also carries a `submitterId`, a `NOT NULL` column the
pipeline does not itself check. -/
theorem c8_receive_transaction_pipeline (ctx : GenCtx) (m : TxMsg) (s : NodeState) :
    ((falsyStr m.transactionId || falsyStr m.timestamp || falsyStr m.rowHash ||
      falsyStr m.rawDataJson || m.projId.isNone) = true →
      receiveTransaction ctx m s = (RecvTxResult.missingFields, s)) ∧
    ((falsyStr m.transactionId || falsyStr m.timestamp || falsyStr m.rowHash ||
      falsyStr m.rawDataJson || m.projId.isNone) = false →
      sha256hex (jstr m.transactionId ++ jstr m.timestamp ++ jstr m.rawDataJson)
        ≠ jstr m.rowHash →
      receiveTransaction ctx m s = (RecvTxResult.hashMismatch, s)) ∧
    (∀ tid sub, (falsyStr m.transactionId || falsyStr m.timestamp || falsyStr m.rowHash ||
      falsyStr m.rawDataJson || m.projId.isNone) = false →
      sha256hex (jstr m.transactionId ++ jstr m.timestamp ++ jstr m.rawDataJson)
        = jstr m.rowHash →
      m.transactionId = some tid →
      m.submitterId = some sub →
      s.mempool.any (fun r => r.transactionId = tid) = true →
      receiveTransaction ctx m s = (RecvTxResult.duplicateId, s)) ∧
    (∀ tid sub, (falsyStr m.transactionId || falsyStr m.timestamp || falsyStr m.rowHash ||
      falsyStr m.rawDataJson || m.projId.isNone) = false →
      sha256hex (jstr m.transactionId ++ jstr m.timestamp ++ jstr m.rawDataJson)
        = jstr m.rowHash →
      m.transactionId = some tid →
      m.submitterId = some sub →
      s.mempool.any (fun r => r.transactionId = tid) = false →
      ∃ t' row, receiveTransaction ctx m s
          = (RecvTxResult.accepted t', { s with mempool := s.mempool ++ [row] }) ∧
        row.transactionId = tid ∧ row.submitterId = sub ∧ some row.rowHash = m.rowHash) := by
  refine ⟨?_, ?_, ?_, ?_⟩
  · intro hb
    simp [receiveTransaction, hb]
  · intro hb hhash
    simp only [receiveTransaction, hb, Bool.false_eq_true, if_false]
    rw [if_pos hhash]
  · intro tid sub hb hhash hid hsub hdup
    obtain ⟨hne, hproj, _⟩ := presence_of_bundle_false hb
    obtain ⟨row, ret, hfin, hrowtid, _, _⟩ :=
      finalizeTransaction_ok_parts ctx hid (hne tid hid) hproj hsub
    have hcreate : createTransaction ctx m s
        = Except.error (DbErr.uniqueViolation "mempool_transactions.transaction_id") := by
      unfold createTransaction
      rw [hfin]
      simp [hrowtid, hdup]
    simp only [receiveTransaction, hb, Bool.false_eq_true, if_false]
    rw [if_neg (not_not_intro hhash), hcreate]
    rfl
  · intro tid sub hb hhash hid hsub hfresh
    obtain ⟨hne, hproj, rh, hrh, hrhne⟩ := presence_of_bundle_false hb
    obtain ⟨row, ret, hfin, hrowtid, hrowsub, hrow_rh⟩ :=
      finalizeTransaction_ok_parts ctx hid (hne tid hid) hproj hsub
    have hcreate : createTransaction ctx m s
        = Except.ok (ret, { s with mempool := s.mempool ++ [row] }) := by
      unfold createTransaction
      rw [hfin]
      simp [hrowtid, hfresh]
    refine ⟨ret, row, ?_, hrowtid, hrowsub, ?_⟩
    · simp only [receiveTransaction, hb, Bool.false_eq_true, if_false]
      rw [if_neg (not_not_intro hhash), hcreate]
    · rw [(hrow_rh rh hrh hrhne).1, hrh]

/-- C8 witness: re-receiving the already-admitted `fullTx` is answered with
the distinct duplicate response, the existing record standing unchanged. -/
theorem c8_receive_transaction_witness :
    receiveTransaction ctx0 fullTx oneTxState = (RecvTxResult.duplicateId, oneTxState) := by
  have h := (c8_receive_transaction_pipeline ctx0 fullTx oneTxState).2.2.1
  exact h "tg8" "alice" (by decide) (by rfl) rfl rfl (by decide)

/-- C9 counterexample: submitting a transaction while the single known peer
is unreachable stores it locally, yet the operation reports the broadcast
failure (an error response) to the caller rather than success. -/
theorem c9_counterexample :
    (submitTransaction ctx0 plainTx [false] emptyState).1
        = SubmitResult.broadcastFailed plainRet ∧
    (submitTransaction ctx0 plainTx [false] emptyState).2.mempool.map
        (fun r => r.transactionId) = ["t9"] := by decide

/-- C9 (amended): peer outcomes never affect the local state — a failing peer
neither prevents nor rolls back the local commit of a submission or a mined
block — but the `Promise.all` over the peer calls has no per-destination
catch, so the operation reports an error to the caller exactly when some
peer call failed. -/
theorem c9_broadcast_failure_semantics (ctx : GenCtx) (m : TxMsg) (now : String)
    (peerOk : List Bool) (s : NodeState) :
    (submitTransaction ctx m peerOk s).2 = (submitTransaction ctx m [] s).2 ∧
    (mineBlockInternal now peerOk s).2 = (mineBlockInternal now [] s).2 ∧
    (∀ t s1, createTransaction ctx m s = Except.ok (t, s1) →
      submitTransaction ctx m peerOk s =
        ((if peerOk.all (fun x => x) then SubmitResult.created t
          else SubmitResult.broadcastFailed t), s1)) := by
  refine ⟨?_, ?_, ?_⟩
  · rcases hc : createTransaction ctx m s with e | p
    · simp [submitTransaction, hc]
    · rcases p with ⟨t, s1⟩
      simp only [submitTransaction, hc]
      split <;> rfl
  · by_cases hlen : s.mempool.length < 5
    · simp [mineBlockInternal, hlen]
    · simp only [mineBlockInternal, if_neg hlen]
      rcases hc : addBlockToBlockchain (buildCandidateBlock now s) s with e | p
      · rfl
      · rcases p with ⟨s1, blk⟩
        rfl
  · intro t s1 hc
    simp only [submitTransaction, hc]
    split <;> rfl

/-- C9 witness: the concrete submission of `plainTx` with one dead peer. -/
theorem c9_broadcast_failure_witness :
    submitTransaction ctx0 plainTx [false] emptyState
      = (SubmitResult.broadcastFailed plainRet, plainState) := by
  have h := (c9_broadcast_failure_semantics ctx0 plainTx ts0 [false] emptyState).2.2
    plainRet plainState (by rfl)
  exact h

/-- Characterization of a successful `createTransaction`: the finalized row
is appended to the mempool and the finalized object returned. -/
lemma createTransaction_ok {ctx : GenCtx} {m : TxMsg} {s : NodeState} {t' : TxMsg}
    {s1 : NodeState} (hc : createTransaction ctx m s = Except.ok (t', s1)) :
    ∃ row ret, finalizeTransaction ctx m = Except.ok (row, ret) ∧ t' = ret ∧
      s1 = { s with mempool := s.mempool ++ [row] } := by
  unfold createTransaction at hc
  split at hc
  · exact Except.noConfusion hc
  · next x row ret heq =>
    split at hc
    · exact Except.noConfusion hc
    · cases hc
      exact ⟨row, _, heq, rfl, rfl⟩

/-- C10: `createTransaction` takes every supplied (truthy) field verbatim —
`transactionId`, `timestamp`, `rawDataJson`, `rowHash`, `projId` — and never
checks a supplied `rowHash` against the canonical recomputation: the
characterization below holds for an arbitrary supplied `rh`, with no
hypothesis relating it to `sha256(id ++ timestamp ++ rawDataJson)`, and a
successful local submission stores and returns that unverified hash. -/
theorem c10_supplied_fields_verbatim (ctx : GenCtx) (m : TxMsg) (s : NodeState)
    (tid ts raw rh pj : String)
    (hid : m.transactionId = some tid) (hidne : tid ≠ "")
    (hts : m.timestamp = some ts) (htsne : ts ≠ "")
    (hraw : m.rawDataJson = some raw) (hrawne : raw ≠ "")
    (hrh : m.rowHash = some rh) (hrhne : rh ≠ "")
    (hpj : m.projId = some pj) :
    (∀ row ret, finalizeTransaction ctx m = Except.ok (row, ret) →
      row.transactionId = tid ∧ row.timestamp = ts ∧ row.rawDataJson = raw ∧
      row.rowHash = rh ∧ row.projId = pj ∧
      ret.transactionId = some tid ∧ ret.timestamp = some ts ∧
      ret.rawDataJson = some raw ∧ ret.rowHash = some rh ∧ ret.projId = some pj) ∧
    (∀ t' s1, createTransaction ctx m s = Except.ok (t', s1) →
      t'.rowHash = some rh ∧ ∃ row, s1.mempool = s.mempool ++ [row] ∧ row.rowHash = rh) := by
  have e1 : truthyOr m.transactionId ctx.genId = tid := by
    rw [hid]; simp [truthyOr, hidne]
  have e2 : truthyOr m.timestamp ctx.genTs = ts := by
    rw [hts]; simp [truthyOr, htsne]
  have e3 : truthyOr m.rawDataJson (jsonSubmitPayload m) = raw := by
    rw [hraw]; simp [truthyOr, hrawne]
  have e4 : truthyOr m.rowHash (sha256hex (truthyOr m.transactionId ctx.genId ++
      truthyOr m.timestamp ctx.genTs ++
      truthyOr m.rawDataJson (jsonSubmitPayload m))) = rh := by
    rw [hrh]; simp [truthyOr, hrhne]
  have e5 : (match m.projId with
      | some p => p
      | none => jstr ctx.theProj) = pj := by rw [hpj]
  have hmain : ∀ row ret, finalizeTransaction ctx m = Except.ok (row, ret) →
      row.transactionId = tid ∧ row.timestamp = ts ∧ row.rawDataJson = raw ∧
      row.rowHash = rh ∧ row.projId = pj ∧
      ret.transactionId = some tid ∧ ret.timestamp = some ts ∧
      ret.rawDataJson = some raw ∧ ret.rowHash = some rh ∧ ret.projId = some pj := by
    intro row ret hf
    unfold finalizeTransaction at hf
    rw [if_neg (by simp [hpj])] at hf
    rcases hs : m.submitterId with _ | sub
    · rw [hs] at hf
      exact Except.noConfusion hf
    · rw [hs] at hf
      simp only [Except.ok.injEq, Prod.mk.injEq] at hf
      obtain ⟨hr, hrt⟩ := hf
      subst hr hrt
      exact ⟨e1, e2, e3, e4, e5, congrArg some e1, congrArg some e2,
        congrArg some e3, congrArg some e4, congrArg some e5⟩
  refine ⟨hmain, ?_⟩
  intro t' s1 hc
  obtain ⟨row, ret, hf, hteq, hseq⟩ := createTransaction_ok hc
  have hparts := hmain row ret hf
  subst hteq hseq
  exact ⟨hparts.2.2.2.2.2.2.2.2.1, row, rfl, hparts.2.2.2.1⟩

/-- C10 witness: a local submission supplying the inconsistent row hash
`"deadbeef"` is finalized with exactly that hash in the stored row and in
the returned broadcast object. -/
theorem c10_supplied_fields_witness :
    unverifiedPair.1.rowHash = "deadbeef" ∧ unverifiedPair.2.rowHash = some "deadbeef" := by
  have h := (c10_supplied_fields_verbatim ctx0 unverifiedTx emptyState
    "t10" ts0 "x" "deadbeef" "3" rfl (by decide) rfl (by decide) rfl (by decide)
    rfl (by decide) rfl).1 unverifiedPair.1 unverifiedPair.2 (by rfl)
  exact ⟨h.2.2.2.1, h.2.2.2.2.2.2.2.2.1⟩
